import Mathlib

/-!
Verification of the atooms tutorial's core contracts: the
Particle/Cell/System data model, the xyz trajectory read/write layer and
the step-driven simulation runner with callback scheduling.  The tutorial
notebook only calls into the library, so each operation is modelled from
the specification text and the behaviour the notebook demonstrates.
Real-valued quantities are embedded as exact rationals.
-/

/-- Modelled from the spec (§7): the error kinds raised by the library
(`ConfigurationError`, `FormatError`, `PreconditionError`);
the `Simulation`/`System` operations surface them via `Except`. -/
inductive SimError where
  | configurationError
  | formatError
  | preconditionError
deriving DecidableEq, Repr

/-- Modelled from the spec (§4.5): one registered callback entry: the
bound payload captured at `add` time (the callback function together with
its bound arguments, kept opaque of type `A`) and the firing interval. -/

structure Registered (A : Type) where
  action : A
  interval : ℕ
deriving DecidableEq, Repr

/-- Modelled from the spec (§3, §4.5): the simulation runner.  It wraps a
backend exposing a system `S` and an advance-by-one-step operation
(`backendStep`; the spec allows either unit or batch advance), tracks the
cumulative `current_step` counter starting at 0, and keeps the registered
callbacks in registration order.  `events` is the observational trace of
callback invocations: each entry records the bound payload that was
invoked and the value of `current_step` at invocation time. -/

structure Simulation (S A : Type) where
  system : S
  backendStep : S → S
  current_step : ℕ
  callbacks : List (Registered A)
  events : List (A × ℕ)

/-- Modelled from the spec: `Simulation(backend)` wraps a fresh backend,
with the step counter at 0 and no callbacks registered. -/

def Simulation.setup (s : S) (f : S → S) : Simulation S A :=
  ⟨s, f, 0, [], []⟩

/-- Modelled from the spec (§4.5): `add(callback, interval, **kwargs)`
registers a callback (its payload bound at registration time) to fire
every `interval` steps; registration order is preserved. -/

def Simulation.add (sim : Simulation S A) (a : A) (i : ℕ) : Simulation S A :=
  { sim with callbacks := sim.callbacks ++ [⟨a, i⟩] }

/-- Modelled from the spec (§4.5): the callbacks fired at step `t`, in
registration order: those whose interval divides the current step count
(`current_step mod interval == 0`). -/

def firedAt (t : ℕ) : List (Registered A) → List (A × ℕ)
  | [] => []
  | ⟨a, i⟩ :: rest => if t % i = 0 then (a, t) :: firedAt t rest else firedAt t rest

/-- Modelled from the spec (§4.5): one unit of progress: invoke the
backend's advance-by-one-step operation, increment `current_step`, then
invoke every registered callback due at the new step count, in
registration order. -/

def Simulation.runOne (sim : Simulation S A) : Simulation S A :=
  let t := sim.current_step + 1
  { sim with
      system := sim.backendStep sim.system
      current_step := t
      events := sim.events ++ firedAt t sim.callbacks }

/-- Modelled from the spec (§4.5): `run(steps)` performs `steps` units of
progress (no early-termination signal is modelled, matching the claims'
"assuming no early termination" reading). -/

def Simulation.run (sim : Simulation S A) : ℕ → Simulation S A
  | 0 => sim
  | n + 1 => (sim.runOne).run n

/-- Modelled from the spec (§4.5, §7): `run_until(target)` requires
`target ≥ current_step` (otherwise a `PreconditionError`) and is
equivalent to `run(target - current_step)`. -/

def Simulation.run_until (sim : Simulation S A) (target : ℕ) :
    Except SimError (Simulation S A) :=
  if target < sim.current_step then .error .preconditionError
  else .ok (sim.run (target - sim.current_step))

/-- The full trace of callback invocations produced by `n` units of
progress starting from step count `start`: the due callbacks at each of
the steps `start+1, ..., start+n`, in step order. -/

def traceFrom (cbs : List (Registered A)) (start n : ℕ) : List (A × ℕ) :=
  (List.range n).flatMap fun i => firedAt (start + i + 1) cbs

/-- Modelled from the spec (§3, §4.2): the periodic simulation cell: an
axis-aligned box given by `D` per-dimension side lengths (real numbers
embedded as exact rationals). -/

structure Cell (D : ℕ) where
  side : Fin D → ℚ
deriving DecidableEq

/-- Modelled from the spec (§4.2): `volume` is the product of the sides,
recomputed on demand. -/

def Cell.volume (c : Cell D) : ℚ :=
  Finset.univ.prod fun d => c.side d

/-- Modelled from the spec (§3): a particle with real-valued position and
velocity of fixed dimensionality `D`, a species label, a mass and an
optional radius (`none` meaning a point particle).  Every claim settled
against this model concerns particles whose velocity is present, so the
velocity field is kept total; the lattice (integer site) position variant
lives in the trajectory layer below. -/

structure Particle (D : ℕ) where
  position : Fin D → ℚ
  velocity : Fin D → ℚ
  species : String := "A"
  mass : ℚ := 1
  radius : Option ℚ := none
deriving DecidableEq

/-- Modelled from the spec (§4.1): the per-dimension minimum-image map
shared by `fold` and `nearest_image`:
`v[d] - side[d] * round(v[d] / side[d])`. -/

def foldVec (side v : Fin D → ℚ) : Fin D → ℚ :=
  fun d => v d - side d * round (v d / side d)

/-- Modelled from the spec (§4.1): `fold(cell)` maps `position` into the
canonical cell centered at the origin, per dimension:
`position[d] -= side[d] * round(position[d] / side[d])`. -/

def Particle.fold (p : Particle D) (c : Cell D) : Particle D :=
  { p with position := foldVec c.side p.position }

/-- Modelled from the spec (§4.1): `nearest_image(other, cell, copy)`
computes the minimum-image separation of `self` relative to `other` (the
`fold` formula applied to the separation vector) and the periodic image
of `other` realising it.  The returned pair is (result, state of `other`
after the call): with `copy = true` the result is a new particle and
`other` is untouched; with `copy = false` `other` itself is moved to the
image position. -/

def Particle.nearest_image (self other : Particle D) (c : Cell D)
    (copy : Bool) : Particle D × Particle D :=
  let sep := foldVec c.side fun d => self.position d - other.position d
  let image := { other with position := fun d => self.position d - sep d }
  if copy then (image, other) else (image, image)

/-- Modelled from the spec (§4.1): `kinetic_energy`,
`0.5 * mass * sum(velocity[d]^2 for d in dims)`. -/

def Particle.kinetic_energy (p : Particle D) : ℚ :=
  1 / 2 * p.mass * Finset.univ.sum fun d => p.velocity d ^ 2

/-- Modelled from the spec (§4.1): `cm_velocity(particles)`, the
mass-weighted average velocity of the sequence. -/

def cm_velocity (ps : List (Particle D)) : Fin D → ℚ := fun d =>
  (ps.map fun p => p.mass * p.velocity d).sum / (ps.map fun p => p.mass).sum

/-- Modelled from the spec (§4.1): `fix_total_momentum(particles)`
subtracts `cm_velocity` from every particle's velocity in place. -/

def fix_total_momentum (ps : List (Particle D)) : List (Particle D) :=
  let c := cm_velocity ps
  ps.map fun p => { p with velocity := fun d => p.velocity d - c d }

/-- Modelled from the spec (§3): a thermostat reservoir carrying its own
target temperature, a state variable unrelated to the instantaneous
kinetic temperature. -/

structure Thermostat where
  temperature : ℚ
deriving DecidableEq

/-- Modelled from the spec (§3): the `System` aggregate: an
insertion-ordered sequence of particles, an optional periodic cell
(`none` meaning unbounded) and an optional thermostat reservoir. -/

structure System (D : ℕ) where
  particle : List (Particle D)
  cell : Option (Cell D)
  thermostat : Option Thermostat := none
deriving DecidableEq

/-- Modelled from the spec (§3): the `density` getter,
`(number of particles) / cell.volume`, available when a cell is
present. -/

def System.density (sys : System D) : Option ℚ :=
  sys.cell.map fun c => (sys.particle.length : ℚ) / c.volume

/-- Modelled from the spec (§3, §4.3): `set_density(rho)` rescales the
cell sides uniformly so the density matches the target, holding the
particle count fixed and leaving every particle untouched; with a null
cell it raises a `ConfigurationError`-class condition.  The missing
library code computes the uniform factor as the `D`-th root
`(density / rho) ** (1 / D)`, which has no exact rational representative,
so the factor `f` is taken as an argument here and the theorems constrain
it by its defining equation `f ^ D * volume = count / rho`. -/

def System.set_density (sys : System D) (rho f : ℚ) :
    Except SimError (System D) :=
  match sys.cell with
  | none => .error .configurationError
  | some c => .ok { sys with cell := some ⟨fun d => f * c.side d⟩ }

/-- Modelled from the spec (§3): the kinetic temperature getter,
`T = (2 / ndof) * (total kinetic energy)` with
`ndof = D * (particle count)`. -/

def System.temperature (sys : System D) : ℚ :=
  2 / ((D : ℚ) * sys.particle.length) *
    (sys.particle.map Particle.kinetic_energy).sum

/-- Modelled from the spec (§3, §4.3): `set_temperature(T)` rescales all
particle velocities by one common factor so the instantaneous kinetic
temperature equals the target; when every particle velocity is
zero-length the scale factor is 0/0 and a `ConfigurationError`-class
condition is raised.  The missing library code computes the factor as
`sqrt(T / temperature)`, which has no exact rational representative, so
the factor `f` is taken as an argument here and the theorems constrain it
by its defining equation `f ^ 2 * temperature = T`. -/

def System.set_temperature (sys : System D) (T f : ℚ) :
    Except SimError (System D) :=
  if sys.particle.all fun p => decide (∀ d, p.velocity d = 0) then
    .error .configurationError
  else
    .ok { sys with particle := sys.particle.map fun p =>
            { p with velocity := fun d => f * p.velocity d } }

/-- Sample cell with unit side in one dimension (tutorial: `Cell(side=1.0)`). -/
def cellOne : Cell 1 := ⟨fun _ => 1⟩

/-- Sample particle at position 2.0 (tutorial: `Particle(position=2.0)`). -/
def particleTwo : Particle 1 := { position := fun _ => 2, velocity := fun _ => 0 }

/-- Sample particle at position -0.45 (tutorial cell 17). -/
def particleLeft : Particle 1 := { position := fun _ => -9/20, velocity := fun _ => 0 }

/-- Sample particle at position +0.45 (tutorial cell 17). -/
def particleRight : Particle 1 := { position := fun _ => 9/20, velocity := fun _ => 0 }

/-- Sample pair of particles with unequal masses and nonzero velocities. -/
def unequalPair : List (Particle 1) :=
  [{ position := fun _ => 0, velocity := fun _ => 1, mass := 1 },
   { position := fun _ => 0, velocity := fun _ => 2, mass := 3 }]

/-- Sample system with a null cell (no way to express a target volume). -/
def sysNoCell : System 1 := { particle := [particleTwo], cell := none }

/-- Sample system whose only particle has a zero-length velocity. -/
def sysZeroVel : System 1 := { particle := [particleTwo], cell := some cellOne }

/-- Sample particle at the origin of a 3d cell. -/
def particleOrigin : Particle 3 := { position := fun _ => 0, velocity := fun _ => 0 }

/-- Sample unit 3d cell. -/
def cellUnit : Cell 3 := ⟨fun _ => 1⟩

/-- Sample system of 8 particles in the unit 3d cell. -/
def sysEight : System 3 :=
  { particle := List.replicate 8 particleOrigin, cell := some cellUnit }

/-- Sample particle with unit velocity in one dimension. -/
def particleUnitVel : Particle 1 := { position := fun _ => 0, velocity := fun _ => 1 }

/-- Sample system whose kinetic temperature is 1. -/
def sysHot : System 1 := { particle := [particleUnitVel], cell := none }

namespace Traj

/-- Modelled from the spec (§3): a trajectory-layer particle position:
either a real-valued vector or — for lattice models — a single integer
site index. -/

inductive Pos where
  | vec (coords : List ℚ)
  | site (index : ℤ)
deriving DecidableEq, Repr

/-- Modelled from the spec (§3, §4.4): the particle data a frame carries:
the serialized default fields (species and position); the velocity and
radius slots are left unset by parsing. -/

structure Particle where
  species : String
  position : Pos
  velocity : Option (List ℚ) := none
  radius : Option ℚ := none
deriving DecidableEq, Repr

/-- Modelled from the spec (§3): the system snapshot a frame stores: a
particle sequence and an optional cell given by its side lengths (`none`
meaning no cell / unbounded). -/

structure System where
  particle : List Particle
  cell : Option (List ℚ)
deriving DecidableEq, Repr

/-- Modelled from the spec (§4.4): the numeric columns a position
serializes to: a real vector writes its components, an integer site
writes the one number. -/

def Pos.columns : Pos → List ℚ
  | .vec xs => xs
  | .site i => [(i : ℚ)]

/-- Modelled from the spec (§4.4): one record of the xyz-like format: the
particle count, the metadata holding the step and (if present) the cell
side, and one row of field columns per particle (species plus position
columns, in sequence order). -/

structure Record where
  count : ℕ
  step : ℤ
  cellSide : Option (List ℚ)
  rows : List (String × List ℚ)
deriving DecidableEq, Repr

/-- Modelled from the spec (§4.4): serialising a system at a given step
into one record. -/

def serialize (sys : System) (step : ℤ) : Record :=
  ⟨sys.particle.length, step, sys.cell,
    sys.particle.map fun p => (p.species, p.position.columns)⟩

/-- Modelled from the spec (§4.4): parsing one row back into a particle:
the numeric columns are read back as a real-valued (float) vector — the
integer typing of a lattice site is not recoverable from the text. -/

def parseRow (r : String × List ℚ) : Particle :=
  { species := r.1, position := .vec r.2 }

/-- Modelled from the spec (§4.4): reading one record back into a
system. -/

def parse (r : Record) : System :=
  ⟨r.rows.map parseRow, r.cellSide⟩

/-- Modelled from the spec (§3, §4.4): a trajectory: the backing file as
a sequence of records in file order, plus the registered post-read
callbacks in registration order. -/

structure TrajectoryXYZ where
  records : List Record
  callbacks : List (System → System)

/-- A freshly opened (truncated) trajectory file with no callbacks. -/
def TrajectoryXYZ.fresh : TrajectoryXYZ := ⟨[], []⟩

/-- Modelled from the spec (§4.4): `write(system, step)` appends one
record to the backing file. -/

def TrajectoryXYZ.write (t : TrajectoryXYZ) (sys : System) (step : ℤ) :
    TrajectoryXYZ :=
  { t with records := t.records ++ [serialize sys step] }

/-- Modelled from the spec (§3): `steps`: one integer per frame, in the
order frames were written/read. -/

def TrajectoryXYZ.steps (t : TrajectoryXYZ) : List ℤ :=
  t.records.map fun r => r.step

/-- Modelled from the spec (§3, §4.4): `add_callback` registers one more
post-read transformation, applied after the previously registered
ones. -/

def TrajectoryXYZ.add_callback (t : TrajectoryXYZ) (f : System → System) :
    TrajectoryXYZ :=
  { t with callbacks := t.callbacks ++ [f] }

/-- Modelled from the spec (§3): the registered transformations applied
in registration order. -/

def applyCallbacks (fs : List (System → System)) (sys : System) : System :=
  fs.foldl (fun s f => f s) sys

/-- Modelled from the spec (§3, §4.4): indexing a trajectory by an
integer: a negative index counts from the end exactly as for an ordered
sequence; the callbacks are applied to the parsed system before the
frame is returned to the caller. -/

def TrajectoryXYZ.get (t : TrajectoryXYZ) (i : ℤ) : Option System :=
  if 0 ≤ i then
    (t.records[i.toNat]?).map fun r => applyCallbacks t.callbacks (parse r)
  else if 0 ≤ (t.records.length : ℤ) + i then
    (t.records[((t.records.length : ℤ) + i).toNat]?).map fun r =>
      applyCallbacks t.callbacks (parse r)
  else none

/-- Writing a list of (system, step) frames in order. -/
def writeAll (t : TrajectoryXYZ) (ws : List (System × ℤ)) : TrajectoryXYZ :=
  ws.foldl (fun acc w => acc.write w.1 w.2) t

end Traj

def sampleSystem : Traj.System :=
  { particle := List.replicate 4 ⟨"A", .vec [0, 0, 0], none, none⟩,
    cell := some [10, 10, 10] }

/-- Sample frames written at steps 0, 10, 20 (tutorial cell 27). -/
def sampleFrames : List (Traj.System × ℤ) :=
  [(sampleSystem, 0), (sampleSystem, 10), (sampleSystem, 20)]

def latticeSystem : Traj.System :=
  { particle := [⟨"A", .site 0, none, none⟩, ⟨"A", .site 1, none, none⟩,
      ⟨"A", .site 2, none, none⟩],
    cell := none }

/-- Modelled from the tutorial's `modify` read callback: coerce a
one-component parsed position back to an integer site (python `int()`
truncates toward zero, as integer division of the numerator by the
denominator does here); other positions are left alone. -/

def Traj.Pos.toSite : Traj.Pos → Traj.Pos
  | .vec (x :: _) => .site (x.num / (x.den : ℤ))
  | .vec [] => .vec []
  | .site i => .site i

/-- Modelled from the tutorial's `modify` read callback: convert every
particle position to an integer site and null out velocity and radius. -/

def Traj.modify (sys : Traj.System) : Traj.System :=
  { sys with particle := sys.particle.map fun p =>
      { p with
          position := p.position.toSite
          velocity := none
          radius := none } }

/-- C10: `write` accepts a system whose cell is null and whose particle
positions are plain integer sites and appends a well-formed record (one
row per counted particle, null cell recorded); reading the trajectory
back yields the positions as real-valued (float) vectors rather than
integers, unless a transformation registered via `add_callback` converts
them, registered callbacks being applied to each parsed system (a new
callback after all earlier ones) before the frame is returned. -/

theorem Simulation.run_current_step (sim : Simulation S A) (n : ℕ) :
    (sim.run n).current_step = sim.current_step + n := by
  induction n generalizing sim with
  | zero => rfl
  | succ n ih =>
      show ((sim.runOne).run n).current_step = _
      rw [ih]
      simp [Simulation.runOne]
      omega

theorem Simulation.run_callbacks (sim : Simulation S A) (n : ℕ) :
    (sim.run n).callbacks = sim.callbacks := by
  induction n generalizing sim with
  | zero => rfl
  | succ n ih =>
      show ((sim.runOne).run n).callbacks = _
      rw [ih]
      rfl

theorem traceFrom_succ (cbs : List (Registered A)) (start n : ℕ) :
    traceFrom cbs start (n + 1) =
      firedAt (start + 1) cbs ++ traceFrom cbs (start + 1) n := by
  unfold traceFrom
  rw [List.range_succ_eq_map, List.flatMap_cons, List.flatMap_map]
  congr 1
  apply List.flatMap_congr
  intro i hi
  congr 1
  omega

theorem Simulation.run_events (sim : Simulation S A) (n : ℕ) :
    (sim.run n).events = sim.events ++ traceFrom sim.callbacks sim.current_step n := by
  induction n generalizing sim with
  | zero => simp [traceFrom, Simulation.run]
  | succ n ih =>
      show ((sim.runOne).run n).events = _
      rw [ih, traceFrom_succ]
      simp [Simulation.runOne]

theorem mem_firedAt (cbs : List (Registered A)) (u : ℕ) (x : A) (t : ℕ) :
    (x, t) ∈ firedAt u cbs ↔
      t = u ∧ ∃ r ∈ cbs, r.action = x ∧ u % r.interval = 0 := by
  induction cbs with
  | nil => simp [firedAt]
  | cons r rest ih =>
      obtain ⟨ra, ri⟩ := r
      by_cases h : u % ri = 0
      · simp only [firedAt, if_pos h, List.mem_cons, ih, Prod.mk.injEq]
        constructor
        · rintro (⟨hx, ht⟩ | ⟨ht, rr, hr, hP⟩)
          · exact ⟨ht, ⟨ra, ri⟩, by simp, hx.symm, h⟩
          · exact ⟨ht, rr, by simp [hr], hP⟩
        · rintro ⟨ht, rr, hr | hr, hx, hmod⟩
          · subst hr
            exact Or.inl ⟨hx.symm, ht⟩
          · exact Or.inr ⟨ht, rr, hr, hx, hmod⟩
      · simp only [firedAt, if_neg h, ih, List.mem_cons]
        constructor
        · rintro ⟨ht, rr, hr, hP⟩
          exact ⟨ht, rr, Or.inr hr, hP⟩
        · rintro ⟨ht, rr, hr | hr, hx, hmod⟩
          · subst hr
            exact absurd hmod h
          · exact ⟨ht, rr, hr, hx, hmod⟩

theorem mem_traceFrom (cbs : List (Registered A)) (start n : ℕ) (x : A) (t : ℕ) :
    (x, t) ∈ traceFrom cbs start n ↔
      start < t ∧ t ≤ start + n ∧
        ∃ r ∈ cbs, r.action = x ∧ t % r.interval = 0 := by
  simp only [traceFrom, List.mem_flatMap, List.mem_range, mem_firedAt]
  constructor
  · rintro ⟨i, hi, ht, hP⟩
    exact ⟨by omega, by omega, ht ▸ hP⟩
  · rintro ⟨h1, h2, hP⟩
    refine ⟨t - start - 1, by omega, ?_⟩
    have heq : start + (t - start - 1) + 1 = t := by omega
    rw [heq]
    exact ⟨rfl, hP⟩

/-- C1: for every backend and every `n ≥ 0`, `Simulation.run n` increases
`current_step` by exactly `n` (the model has no early termination), and
`run_until target` with `target ≥ current_step` leaves `current_step`
equal to `target`; successive calls resume from the current count, so
`run 10` followed by `run 20` on a fresh runner yields `current_step = 30`,
and `run 10` followed by `run_until 30` also yields `current_step = 30`. -/

theorem run_step_accounting {S A : Type} (sim : Simulation S A)
    (n target : ℕ) (s : S) (f : S → S) :
    (sim.run n).current_step = sim.current_step + n ∧
    (sim.current_step ≤ target →
      ∃ sim', sim.run_until target = .ok sim' ∧ sim'.current_step = target) ∧
    (((Simulation.setup s f : Simulation S A).run 10).run 20).current_step = 30 ∧
    (∃ sim'', ((Simulation.setup s f : Simulation S A).run 10).run_until 30 = .ok sim'' ∧
      sim''.current_step = 30) := by
  refine ⟨Simulation.run_current_step sim n, ?_, ?_, ?_⟩
  · intro h
    refine ⟨sim.run (target - sim.current_step), ?_, ?_⟩
    · unfold Simulation.run_until
      rw [if_neg (not_lt.mpr h)]
    · rw [Simulation.run_current_step]
      omega
  · rw [Simulation.run_current_step, Simulation.run_current_step]
    rfl
  · have h10 : ((Simulation.setup s f : Simulation S A).run 10).current_step = 10 := by
      rw [Simulation.run_current_step]
      rfl
    refine ⟨((Simulation.setup s f : Simulation S A).run 10).run 20, ?_, ?_⟩
    · unfold Simulation.run_until
      rw [h10, if_neg (by norm_num : ¬(30 : ℕ) < 10)]
    · rw [Simulation.run_current_step, h10]

theorem run_step_accounting_witness :
    ∃ sim', (Simulation.setup () id : Simulation Unit Unit).run_until 30 = .ok sim' ∧
      sim'.current_step = 30 :=
  (run_step_accounting (Simulation.setup () id) 7 30 () id).2.1 (Nat.zero_le 30)

/-- C2: during `Simulation.run`, after each unit of step progress the
runner increments `current_step` and then invokes every registered
callback whose interval divides the new step count, in registration
order, recording the payload bound at `add` time; the trace of a run is
characterised exactly, and a callback registered with interval 10 fires
exactly at steps 10, 20, 30 within a `run 30` call on a fresh runner —
not at step 0 and not at step 5. -/

theorem callback_scheduling {S A : Type} (s : S) (f : S → S) (a b : A) :
    (∀ (sim : Simulation S A) (n : ℕ),
        (sim.run n).events = sim.events ++ traceFrom sim.callbacks sim.current_step n) ∧
    (∀ (cbs : List (Registered A)) (start n t : ℕ) (x : A),
        ((x, t) ∈ traceFrom cbs start n ↔
          start < t ∧ t ≤ start + n ∧
            ∃ r ∈ cbs, r.action = x ∧ t % r.interval = 0)) ∧
    ((((Simulation.setup s f).add a 10).run 30).events = [(a, 10), (a, 20), (a, 30)]) ∧
    (((((Simulation.setup s f).add a 10).add b 10).run 10).events = [(a, 10), (b, 10)]) := by
  refine ⟨fun sim n => Simulation.run_events sim n,
    fun cbs start n t x => mem_traceFrom cbs start n x t, ?_, ?_⟩
  · rw [Simulation.run_events]
    show [] ++ traceFrom [⟨a, 10⟩] 0 30 = _
    rfl
  · rw [Simulation.run_events]
    show [] ++ traceFrom [⟨a, 10⟩, ⟨b, 10⟩] 0 10 = _
    rfl

theorem foldVec_abs_le (side v : Fin D → ℚ) (d : Fin D) (h : 0 < side d) :
    |foldVec side v d| ≤ side d / 2 := by
  have key : foldVec side v d =
      side d * (v d / side d - round (v d / side d)) := by
    unfold foldVec
    field_simp
  rw [key, abs_mul, abs_of_pos h]
  calc side d * |v d / side d - (round (v d / side d) : ℚ)|
      ≤ side d * (1 / 2) :=
        mul_le_mul_of_nonneg_left (abs_sub_round _) (le_of_lt h)
    _ = side d / 2 := by ring

theorem foldVec_congruent (side v : Fin D → ℚ) (d : Fin D) :
    v d - foldVec side v d = round (v d / side d) * side d := by
  unfold foldVec
  ring

/-- C4: for every particle with real-valued position and every cell with
positive sides, `fold` updates each coordinate in place by
`position[d] -= side[d] * round(position[d] / side[d])`; afterwards each
coordinate lies in `[-side[d]/2, side[d]/2]` and is congruent to the
original coordinate modulo `side[d]`. -/

theorem fold_canonical_cell {D : ℕ} (p : Particle D) (c : Cell D)
    (h : ∀ d, 0 < c.side d) :
    (∀ d, (p.fold c).position d =
      p.position d - c.side d * round (p.position d / c.side d)) ∧
    (∀ d, -(c.side d / 2) ≤ (p.fold c).position d ∧
      (p.fold c).position d ≤ c.side d / 2) ∧
    (∀ d, ∃ k : ℤ, p.position d - (p.fold c).position d = k * c.side d) := by
  refine ⟨fun d => rfl, fun d => ?_, fun d => ?_⟩
  · have hb := abs_le.mp (foldVec_abs_le c.side p.position d (h d))
    exact hb
  · exact ⟨round (p.position d / c.side d),
      foldVec_congruent c.side p.position d⟩

theorem fold_canonical_cell_witness :
    (∀ d, 0 < cellOne.side d) ∧
    ((∀ d, (particleTwo.fold cellOne).position d =
      particleTwo.position d -
        cellOne.side d * round (particleTwo.position d / cellOne.side d)) ∧
    (∀ d, -(cellOne.side d / 2) ≤ (particleTwo.fold cellOne).position d ∧
      (particleTwo.fold cellOne).position d ≤ cellOne.side d / 2) ∧
    (∀ d, ∃ k : ℤ, particleTwo.position d - (particleTwo.fold cellOne).position d =
      k * cellOne.side d)) :=
  ⟨fun _ => by norm_num [cellOne],
   fold_canonical_cell particleTwo cellOne (fun _ => by norm_num [cellOne])⟩

/-- C8: for any two particles and a cell with positive sides,
`nearest_image` realises the minimum-image separation of `self` relative
to `other`: each component of the separation between `self` and the
returned image has absolute value at most `side[d]/2`; with `copy = true`
the call returns a new particle and leaves `other` unchanged, and with
`copy = false` it moves `other` itself onto the image. -/

theorem nearest_image_separation {D : ℕ} (self other : Particle D)
    (c : Cell D) (copy : Bool) (h : ∀ d, 0 < c.side d) :
    (∀ d, |self.position d - (self.nearest_image other c copy).1.position d| ≤
      c.side d / 2) ∧
    ((self.nearest_image other c true).2 = other) ∧
    ((self.nearest_image other c false).2 = (self.nearest_image other c false).1) := by
  refine ⟨fun d => ?_, rfl, rfl⟩
  have h1 : (self.nearest_image other c copy).1.position d =
      self.position d -
        foldVec c.side (fun e => self.position e - other.position e) d := by
    cases copy <;> rfl
  rw [h1]
  have h2 : self.position d -
      (self.position d -
        foldVec c.side (fun e => self.position e - other.position e) d) =
      foldVec c.side (fun e => self.position e - other.position e) d := by
    ring
  rw [h2]
  exact foldVec_abs_le c.side _ d (h d)

theorem nearest_image_separation_witness :
    (∀ d, 0 < cellOne.side d) ∧
    ((∀ d, |particleLeft.position d -
      (particleLeft.nearest_image particleRight cellOne true).1.position d| ≤
      cellOne.side d / 2) ∧
    ((particleLeft.nearest_image particleRight cellOne true).2 = particleRight) ∧
    ((particleLeft.nearest_image particleRight cellOne false).2 =
      (particleLeft.nearest_image particleRight cellOne false).1)) :=
  ⟨fun _ => by norm_num [cellOne],
   nearest_image_separation particleLeft particleRight cellOne true
     (fun _ => by norm_num [cellOne])⟩

theorem sum_map_mass_mul_sub {D : ℕ} (ps : List (Particle D)) (cv : ℚ) (d : Fin D) :
    (ps.map fun p => p.mass * (p.velocity d - cv)).sum =
      (ps.map fun p => p.mass * p.velocity d).sum -
        (ps.map fun p => p.mass).sum * cv := by
  induction ps with
  | nil => simp
  | cons p rest ih =>
      simp only [List.map_cons, List.sum_cons, ih]
      ring

/-- C9: for every non-empty particle sequence with positive (equal or
unequal) masses, `fix_total_momentum` subtracts the mass-weighted average
velocity `cm_velocity` from every particle's velocity, and the resulting
sequence's `cm_velocity` is the zero vector (exactly, in the rational
model). -/

theorem fix_total_momentum_cm_zero {D : ℕ} (ps : List (Particle D))
    (hne : ps ≠ []) (hm : ∀ p ∈ ps, 0 < p.mass) :
    (fix_total_momentum ps = ps.map fun p =>
      { p with velocity := fun d => p.velocity d - cm_velocity ps d }) ∧
    (∀ d, cm_velocity (fix_total_momentum ps) d = 0) := by
  refine ⟨rfl, fun d => ?_⟩
  have hM : 0 < (ps.map fun p => p.mass).sum := by
    refine List.sum_pos _ ?_ ?_
    · intro x hx
      obtain ⟨p, hp, rfl⟩ := List.mem_map.mp hx
      exact hm p hp
    · intro hmap
      exact hne (List.map_eq_nil_iff.mp hmap)
  have hmass : ((fix_total_momentum ps).map fun p => p.mass) =
      ps.map fun p => p.mass := by
    unfold fix_total_momentum
    rw [List.map_map]
    rfl
  have hnum : ((fix_total_momentum ps).map fun p => p.mass * p.velocity d) =
      ps.map fun p => p.mass * (p.velocity d - cm_velocity ps d) := by
    unfold fix_total_momentum
    rw [List.map_map]
    rfl
  show ((fix_total_momentum ps).map fun p => p.mass * p.velocity d).sum /
      ((fix_total_momentum ps).map fun p => p.mass).sum = 0
  rw [hmass, hnum, sum_map_mass_mul_sub]
  show (_ - _ * ((ps.map fun p => p.mass * p.velocity d).sum /
      (ps.map fun p => p.mass).sum)) / _ = 0
  rw [mul_div_cancel₀ _ (ne_of_gt hM), sub_self, zero_div]

theorem fix_total_momentum_cm_zero_witness :
    unequalPair ≠ [] ∧ (∀ p ∈ unequalPair, 0 < p.mass) ∧
    ((fix_total_momentum unequalPair = unequalPair.map fun p =>
      { p with velocity := fun d => p.velocity d - cm_velocity unequalPair d }) ∧
    (∀ d, cm_velocity (fix_total_momentum unequalPair) d = 0)) :=
  ⟨by decide, by decide,
   fix_total_momentum_cm_zero unequalPair (by decide) (by decide)⟩

/-- C5: the density setter fails with a `ConfigurationError`-class
condition when the cell is null, and the temperature setter fails with
the same class of condition when all particle velocities are zero-length;
in both cases the error is surfaced to the caller rather than silently
returning a system. -/

theorem setter_error_conditions {D : ℕ} (sysA sysB : System D)
    (rho f T g : ℚ) (hc : sysA.cell = none)
    (hv : ∀ p ∈ sysB.particle, ∀ d, p.velocity d = 0) :
    sysA.set_density rho f = .error .configurationError ∧
    sysB.set_temperature T g = .error .configurationError := by
  constructor
  · unfold System.set_density
    rw [hc]
  · unfold System.set_temperature
    have hall : (sysB.particle.all fun p => decide (∀ d, p.velocity d = 0)) = true := by
      rw [List.all_eq_true]
      intro p hp
      exact decide_eq_true (hv p hp)
    rw [hall, if_pos rfl]

theorem setter_error_conditions_witness :
    sysNoCell.set_density (6/5) 1 = .error .configurationError ∧
    sysZeroVel.set_temperature (3/2) 1 = .error .configurationError :=
  setter_error_conditions sysNoCell sysZeroVel (6/5) 1 (3/2) 1 rfl (by decide)

/-- C6: setting the density rescales the cell sides uniformly so that
(number of particles) / cell.volume equals the target density, holds the
particle count fixed and leaves every particle's position unchanged (the
particle list is returned verbatim: no affine rescaling of positions). -/

theorem set_density_rescales_cell {D : ℕ} (sys : System D) (c : Cell D)
    (rho f : ℚ) (hc : sys.cell = some c) (hrho : 0 < rho)
    (hne : sys.particle ≠ [])
    (hf : f ^ D * c.volume = (sys.particle.length : ℚ) / rho) :
    ∃ sys', sys.set_density rho f = .ok sys' ∧
      sys'.particle = sys.particle ∧
      sys'.cell = some ⟨fun d => f * c.side d⟩ ∧
      sys'.density = some rho := by
  refine ⟨{ sys with cell := some ⟨fun d => f * c.side d⟩ }, ?_, rfl, rfl, ?_⟩
  · unfold System.set_density
    rw [hc]
  · unfold System.density
    have hvol : Cell.volume ⟨fun d => f * c.side d⟩ = f ^ D * c.volume := by
      unfold Cell.volume
      rw [Finset.prod_mul_distrib, Finset.prod_const, Finset.card_univ,
        Fintype.card_fin]
    have hlen : (0 : ℚ) < sys.particle.length := by
      exact_mod_cast List.length_pos.mpr hne
    show some ((sys.particle.length : ℚ) / Cell.volume ⟨fun d => f * c.side d⟩) =
      some rho
    rw [hvol, hf, div_div_eq_mul_div, mul_comm, mul_div_assoc,
      div_self (ne_of_gt hlen), mul_one]

theorem set_density_rescales_cell_witness :
    (0 : ℚ) < 1 ∧ sysEight.particle ≠ [] ∧
    ((2 : ℚ) ^ 3 * cellUnit.volume = (sysEight.particle.length : ℚ) / 1) ∧
    (∃ sys', sysEight.set_density 1 2 = .ok sys' ∧
      sys'.particle = sysEight.particle ∧
      sys'.cell = some ⟨fun d => 2 * cellUnit.side d⟩ ∧
      sys'.density = some 1) :=
  ⟨by norm_num, by decide,
   by simp [cellUnit, Cell.volume, sysEight]
      norm_num,
   set_density_rescales_cell sysEight cellUnit 1 2 rfl (by norm_num)
     (by decide)
     (by simp [cellUnit, Cell.volume, sysEight]
         norm_num)⟩

theorem kinetic_energy_scale {D : ℕ} (p : Particle D) (f : ℚ) :
    Particle.kinetic_energy
      { p with velocity := fun d => f * p.velocity d } =
      f ^ 2 * p.kinetic_energy := by
  unfold Particle.kinetic_energy
  show 1 / 2 * p.mass * (Finset.univ.sum fun d => (f * p.velocity d) ^ 2) = _
  have hsum : (Finset.univ.sum fun d => (f * p.velocity d) ^ 2) =
      f ^ 2 * Finset.univ.sum fun d => p.velocity d ^ 2 := by
    rw [Finset.mul_sum]
    exact Finset.sum_congr rfl fun d _ => mul_pow f (p.velocity d) 2
  rw [hsum]
  ring

/-- C7: for every `T > 0` and every system containing a particle with a
nonzero velocity, `set_temperature` rescales all particle velocities by
one common factor, after which the instantaneous kinetic temperature
`(2 / ndof) * (total kinetic energy)` with `ndof = D * (particle count)`
equals `T` exactly in the rational model, so reading `temperature`
immediately afterwards returns `T`. -/

theorem set_temperature_sets_kinetic {D : ℕ} (sys : System D) (T f : ℚ)
    (hT : 0 < T)
    (hv : ∃ p ∈ sys.particle, ∃ d, p.velocity d ≠ 0)
    (hf : f ^ 2 * sys.temperature = T) :
    ∃ sys', sys.set_temperature T f = .ok sys' ∧
      sys'.particle = (sys.particle.map fun p =>
        { p with velocity := fun d => f * p.velocity d }) ∧
      sys'.temperature = T := by
  have hguard : (sys.particle.all fun p => decide (∀ d, p.velocity d = 0)) = false := by
    obtain ⟨p, hp, d, hd⟩ := hv
    rw [List.all_eq_false]
    refine ⟨p, hp, ?_⟩
    simp only [decide_eq_true_eq, not_forall]
    exact ⟨d, hd⟩
  refine ⟨{ sys with particle := sys.particle.map fun p =>
      { p with velocity := fun d => f * p.velocity d } }, ?_, rfl, ?_⟩
  · unfold System.set_temperature
    rw [hguard, if_neg (by simp)]
  · unfold System.temperature
    simp only [List.length_map, List.map_map]
    have hsum : (sys.particle.map (Particle.kinetic_energy ∘ fun p =>
        { p with velocity := fun d => f * p.velocity d })).sum =
        f ^ 2 * (sys.particle.map Particle.kinetic_energy).sum := by
      rw [← List.sum_map_mul_left]
      exact congrArg List.sum
        (List.map_congr_left fun p _ => kinetic_energy_scale p f)
    rw [hsum, mul_left_comm]
    exact hf

theorem set_temperature_sets_kinetic_witness :
    (0 : ℚ) < 4 ∧ (∃ p ∈ sysHot.particle, ∃ d, p.velocity d ≠ 0) ∧
    ((2 : ℚ) ^ 2 * sysHot.temperature = 4) ∧
    (∃ sys', sysHot.set_temperature 4 2 = .ok sys' ∧
      sys'.particle = (sysHot.particle.map fun p =>
        { p with velocity := fun d => 2 * p.velocity d }) ∧
      sys'.temperature = 4) :=
  ⟨by norm_num, by decide,
   by simp [sysHot, System.temperature, Particle.kinetic_energy, particleUnitVel]
      norm_num,
   set_temperature_sets_kinetic sysHot 4 2 (by norm_num) (by decide)
     (by simp [sysHot, System.temperature, Particle.kinetic_energy, particleUnitVel]
         norm_num)⟩

theorem writeAll_records (t : Traj.TrajectoryXYZ) (ws : List (Traj.System × ℤ)) :
    (Traj.writeAll t ws).records =
      t.records ++ ws.map (fun w => Traj.serialize w.1 w.2) ∧
    (Traj.writeAll t ws).callbacks = t.callbacks := by
  induction ws generalizing t with
  | nil => simp [Traj.writeAll]
  | cons w rest ih =>
      have h := ih (t.write w.1 w.2)
      refine ⟨?_, ?_⟩
      · show (Traj.writeAll (t.write w.1 w.2) rest).records = _
        rw [h.1]
        simp [Traj.TrajectoryXYZ.write]
      · show (Traj.writeAll (t.write w.1 w.2) rest).callbacks = _
        rw [h.2]
        rfl

theorem isSome_getElemQ (l : List Traj.Record) (i : ℕ) :
    l[i]?.isSome ↔ i < l.length := by
  rw [Option.isSome_iff_ne_none, ne_eq, List.getElem?_eq_none_iff]
  omega

theorem isSome_optionMap (f : α → β) (o : Option α) :
    (o.map f).isSome = o.isSome := by
  cases o <;> rfl

/-- C3: writing `N` frames via `write(system, step)` and reading the
trajectory back yields exactly `N` frames whose `steps` sequence equals
the written step values in order; the number of steps equals the number
of frames, and indexing with `-1` returns the same frame as indexing
with `N - 1` (negative indexing as for an ordered sequence). -/

theorem trajectory_roundtrip (ws : List (Traj.System × ℤ)) :
    (Traj.writeAll Traj.TrajectoryXYZ.fresh ws).steps = ws.map Prod.snd ∧
    (Traj.writeAll Traj.TrajectoryXYZ.fresh ws).steps.length =
      (Traj.writeAll Traj.TrajectoryXYZ.fresh ws).records.length ∧
    (∀ j : ℕ, ((Traj.writeAll Traj.TrajectoryXYZ.fresh ws).get (j : ℤ)).isSome ↔
      j < ws.length) ∧
    (ws ≠ [] →
      (Traj.writeAll Traj.TrajectoryXYZ.fresh ws).get (-1) =
        (Traj.writeAll Traj.TrajectoryXYZ.fresh ws).get ((ws.length : ℤ) - 1)) := by
  obtain ⟨hrec, -⟩ := writeAll_records Traj.TrajectoryXYZ.fresh ws
  have hlen : (Traj.writeAll Traj.TrajectoryXYZ.fresh ws).records.length =
      ws.length := by
    rw [hrec]
    simp [Traj.TrajectoryXYZ.fresh]
  refine ⟨?_, ?_, ?_, ?_⟩
  · unfold Traj.TrajectoryXYZ.steps
    rw [hrec]
    show (ws.map fun w => Traj.serialize w.1 w.2).map (fun r => r.step) = _
    rw [List.map_map]
    rfl
  · exact List.length_map _ _
  · intro j
    unfold Traj.TrajectoryXYZ.get
    rw [if_pos (by omega : (0 : ℤ) ≤ (j : ℤ)), isSome_optionMap]
    rw [Int.toNat_natCast, isSome_getElemQ, hlen]
  · intro hne
    have h1 : 1 ≤ ws.length := List.length_pos.mpr hne
    unfold Traj.TrajectoryXYZ.get
    rw [if_neg (by omega : ¬(0 : ℤ) ≤ -1),
      if_pos (by rw [hlen]; omega : (0 : ℤ) ≤
        ((Traj.writeAll Traj.TrajectoryXYZ.fresh ws).records.length : ℤ) + -1),
      if_pos (by omega : (0 : ℤ) ≤ (ws.length : ℤ) - 1)]
    rw [hlen]
    have harith : ((ws.length : ℤ) + -1).toNat = ((ws.length : ℤ) - 1).toNat := by
      omega
    rw [harith]

/-- Sample real-valued frame system (tutorial: 4 particles in a cubic
cell). -/

theorem trajectory_roundtrip_witness :
    sampleFrames ≠ [] ∧
    ((Traj.writeAll Traj.TrajectoryXYZ.fresh sampleFrames).steps =
      sampleFrames.map Prod.snd ∧
    (Traj.writeAll Traj.TrajectoryXYZ.fresh sampleFrames).steps.length =
      (Traj.writeAll Traj.TrajectoryXYZ.fresh sampleFrames).records.length ∧
    (∀ j : ℕ,
      ((Traj.writeAll Traj.TrajectoryXYZ.fresh sampleFrames).get (j : ℤ)).isSome ↔
      j < sampleFrames.length) ∧
    (sampleFrames ≠ [] →
      (Traj.writeAll Traj.TrajectoryXYZ.fresh sampleFrames).get (-1) =
        (Traj.writeAll Traj.TrajectoryXYZ.fresh sampleFrames).get
          ((sampleFrames.length : ℤ) - 1))) :=
  ⟨by decide, trajectory_roundtrip sampleFrames⟩

theorem applyCallbacks_append_one (fs : List (Traj.System → Traj.System))
    (f : Traj.System → Traj.System) (s : Traj.System) :
    Traj.applyCallbacks (fs ++ [f]) s = f (Traj.applyCallbacks fs s) := by
  unfold Traj.applyCallbacks
  rw [List.foldl_append]
  rfl

theorem get_add_callback (t : Traj.TrajectoryXYZ)
    (f : Traj.System → Traj.System) (i : ℤ) :
    (t.add_callback f).get i = (t.get i).map f := by
  simp only [Traj.TrajectoryXYZ.get, Traj.TrajectoryXYZ.add_callback]
  split_ifs with h1 h2
  · cases t.records[i.toNat]? <;> simp [applyCallbacks_append_one]
  · cases t.records[((t.records.length : ℤ) + i).toNat]? <;>
      simp [applyCallbacks_append_one]
  · rfl

/-- Modelled from the tutorial (notebook lattice example): a system with
a null cell whose three particle positions are plain integer site
indices 0, 1, 2. -/

theorem lattice_write_read_callback :
    (∀ (t : Traj.TrajectoryXYZ) (f : Traj.System → Traj.System) (i : ℤ),
      (t.add_callback f).get i = (t.get i).map f) ∧
    (∀ (sys : Traj.System) (step : ℤ),
      (Traj.serialize sys step).rows.length = (Traj.serialize sys step).count ∧
      (Traj.serialize sys step).cellSide = sys.cell) ∧
    (Traj.TrajectoryXYZ.fresh.write latticeSystem 0).records =
      [⟨3, 0, none, [("A", [0]), ("A", [1]), ("A", [2])]⟩] ∧
    (Traj.TrajectoryXYZ.fresh.write latticeSystem 0).get 0 =
      some { particle := [⟨"A", .vec [0], none, none⟩,
               ⟨"A", .vec [1], none, none⟩, ⟨"A", .vec [2], none, none⟩],
             cell := none } ∧
    ((Traj.TrajectoryXYZ.fresh.write latticeSystem 0).add_callback Traj.modify).get 0 =
      some latticeSystem := by
  refine ⟨get_add_callback, fun sys step => ⟨List.length_map _ _, rfl⟩,
    ?_, ?_, ?_⟩
  · decide
  · decide
  · decide
